import Mathlib

/-!
Verification of the LongCat (MyKeeta Passport) automation core against its
specification.  The Lean definitions below are shallow embeddings of the
Python functions in `longcat_automation.py` and `email_service.py`:

* pure string manipulation (`_extract_backurl` and the `urllib.parse`
  helpers it calls) is embedded at the character level;
* JSON values returned by the target service are embedded as an inductive
  `JVal`, with the outcome of `json.loads` abstracted as an outcome type
  (a full JSON grammar is not needed by any claim);
* the browser page is embedded as an oracle supplying, in call order, the
  results of element-locator queries and submit-enabled checks;
* the retry orchestrator is embedded over an environment supplying the
  fresh-email collaborator results and the per-attempt flow outcomes.

Machine integers do not occur: all Python ints involved are unbounded.
`urllib.parse.unquote` is modelled at the byte level (each `%XX` escape
becomes the character with that code); for ASCII data — the only data the
claims touch — this agrees exactly with CPython, which additionally
UTF-8-decodes consecutive high bytes.
-/

/-! ## Percent-decoding and query-string parsing (urllib.parse model) -/

/-- Value of one hexadecimal digit, as accepted by `urllib.parse.unquote`. -/
def hexDigitVal (c : Char) : Option Nat :=
  if '0' ≤ c ∧ c ≤ '9' then some (c.toNat - '0'.toNat)
  else if 'a' ≤ c ∧ c ≤ 'f' then some (c.toNat - 'a'.toNat + 10)
  else if 'A' ≤ c ∧ c ≤ 'F' then some (c.toNat - 'A'.toNat + 10)
  else none

/-- One pass of percent-decoding, as `urllib.parse.unquote` performs on the
characters of its argument: a `%` followed by two hex digits becomes the
character with that code, an invalid escape is kept literally. -/
def pctDecodeL : List Char → List Char
  | [] => []
  | '%' :: a :: b :: rest =>
    match hexDigitVal a, hexDigitVal b with
    | some x, some y => Char.ofNat (16 * x + y) :: pctDecodeL rest
    | _, _ => '%' :: pctDecodeL (a :: b :: rest)
  | c :: rest => c :: pctDecodeL rest

/-- `urllib.parse.unquote` on a `String` (one decoding pass). -/
def pctDecodeOnce (s : String) : String := String.mk (pctDecodeL s.data)

/-- The `value.replace('+', ' ')` step `parse_qsl` applies before unquoting. -/
def plusToSpaceL : List Char → List Char :=
  List.map (fun c => if c = '+' then ' ' else c)

/-- How `parse_qsl` decodes one query-string token: `'+' → ' '`, then one
percent-decoding pass. -/
def qsTokenDecode (tok : List Char) : String :=
  String.mk (pctDecodeL (plusToSpaceL tok))

/-- `qs.split('&')`, the segment split used by `urllib.parse.parse_qsl`. -/
def splitOnAmp : List Char → List (List Char)
  | [] => [[]]
  | c :: rest =>
    let r := splitOnAmp rest
    if c = '&' then [] :: r
    else
      match r with
      | [] => [[c]]
      | h :: t => (c :: h) :: t

/-- `seg.split('=', 1)` restricted to the case where `'='` occurs: the part
before the first `'='` and the part after it. -/
def splitFirstEq : List Char → Option (List Char × List Char)
  | [] => none
  | c :: rest =>
    if c = '=' then some ([], rest)
    else
      match splitFirstEq rest with
      | none => none
      | some (n, v) => some (c :: n, v)

/-- The query component of a URL, as `urllib.parse.urlsplit` extracts it:
everything after the first `'?'` of the part that precedes the first `'#'`. -/
def queryOfL (l : List Char) : List Char :=
  let noFrag := l.takeWhile (fun c => c ≠ '#')
  match noFrag.dropWhile (fun c => c ≠ '?') with
  | [] => []
  | _ :: rest => rest

/-- What `parse_qsl` (defaults: blank values dropped, no strict parsing)
makes of one `&`-separated segment: dropped if it has no `'='` or an empty
raw value, otherwise a pair of decoded name and decoded value. -/
def qslPairOf (seg : List Char) : Option (String × String) :=
  match splitFirstEq seg with
  | none => none
  | some (n, v) =>
    if v = [] then none else some (qsTokenDecode n, qsTokenDecode v)

/-- The raw (still percent-encoded) value of a segment whose decoded name is
`backurl` and whose raw value is nonempty; used to state what
`_extract_backurl` computes in terms of the literal query-string text. -/
def rawBackurlOf (seg : List Char) : Option (List Char) :=
  match splitFirstEq seg with
  | none => none
  | some (n, v) =>
    if v = [] then none
    else if qsTokenDecode n = "backurl" then some v else none

/-- `urllib.parse.parse_qsl` with default arguments. -/
def qslPairs (q : List Char) : List (String × String) :=
  (splitOnAmp q).filterMap qslPairOf

/-- Raw values of all `backurl` parameters of a query string, in order. -/
def rawBackurlVals (q : List Char) : List (List Char) :=
  (splitOnAmp q).filterMap rawBackurlOf

/-- `_extract_backurl` (longcat_automation.py, lines 786-797): parse the
query string of the passport login URL, take the first `backurl` value as
`parse_qs` returns it, and apply `unquote` to it once more. -/
def extractBackurl (url : String) : Option String :=
  match (qslPairs (queryOfL url.data)).find? (fun p => p.1 == "backurl") with
  | none => none
  | some p => if p.2 = "" then none else some (pctDecodeOnce p.2)

/-- `DEFAULT_PASSPORT_LOGIN_URL` (longcat_automation.py, lines 36-41). -/
def defaultPassportLoginUrl : String :=
  "https://passport.mykeeta.com/pc/login?locale=en&region=HK&joinkey=1101498_851697727&token_id=5oTEq210UBLUcm4tcuuy6A&service=consumer&risk_cost_id=119801&theme=longcat&cityId=810001&backurl=https%3A%2F%2Flongcat.chat%2Fapi%2Fv1%2Fuser-loginV3%3Furl%3Dhttps%253A%252F%252Flongcat.chat%252Fplatform%252Fprofile"

theorem pctDecodeL_ne_nil : ∀ (l : List Char), l ≠ [] → pctDecodeL l ≠ [] := by
  intro l hl
  rw [pctDecodeL.eq_def]
  split
  · exact absurd rfl hl
  · split <;> simp
  · simp

theorem qsTokenDecode_ne_empty {v : List Char} (h : v ≠ []) :
    qsTokenDecode v ≠ "" := by
  unfold qsTokenDecode plusToSpaceL
  intro hcontra
  have hdata := congrArg String.data hcontra
  simp only [String.mk] at hdata
  refine pctDecodeL_ne_nil _ ?_ hdata
  simpa using h

theorem backurl_from_segs (segs : List (List Char)) :
    (match (segs.filterMap qslPairOf).find? (fun p => p.1 == "backurl") with
     | none => none
     | some p => if p.2 = "" then none else some (pctDecodeOnce p.2))
    = (segs.filterMap rawBackurlOf).head?.map
        (fun v => pctDecodeOnce (qsTokenDecode v)) := by
  induction segs with
  | nil => rfl
  | cons seg rest ih =>
    rw [List.filterMap_cons, List.filterMap_cons]
    cases hse : splitFirstEq seg with
    | none =>
      simp only [qslPairOf, rawBackurlOf, hse]
      exact ih
    | some nv =>
      obtain ⟨n, v⟩ := nv
      by_cases hv : v = []
      · simp only [qslPairOf, rawBackurlOf, hse, hv, if_pos rfl]
        exact ih
      · by_cases hn : qsTokenDecode n = "backurl"
        · have hvne : qsTokenDecode v ≠ "" := qsTokenDecode_ne_empty hv
          simp only [qslPairOf, rawBackurlOf, hse, if_neg hv, hn]
          rw [List.find?_cons_of_pos _ (by simp)]
          simp [hvne]
        · simp only [qslPairOf, rawBackurlOf, hse, if_neg hv, if_neg hn]
          rw [List.find?_cons_of_neg _ (by simpa using hn)]
          exact ih

/-- C1 (amended): for every login URL, `_extract_backurl` returns the first
nonempty-valued `backurl` parameter of the query string decoded TWICE — the
query-string parser percent-decodes it once (turning `'+'` into a space on
the way), and the function's explicit `unquote` decodes it once more — and
returns nothing when the query string has no such parameter. -/
theorem c1_backurl_decoded_twice (url : String) :
    extractBackurl url
      = (rawBackurlVals (queryOfL url.data)).head?.map
          (fun v => pctDecodeOnce (qsTokenDecode v)) := by
  unfold extractBackurl qslPairs rawBackurlVals
  exact backurl_from_segs _

/-- C1 counterexample: a passport login URL whose query string contains a
`backurl` parameter with raw value `%2541`.  Percent-decoded exactly once
that value is `%41`, but `_extract_backurl` returns `A` (the value decoded
twice), so the extraction does not equal the raw value decoded once.  The
repository's own `DEFAULT_PASSPORT_LOGIN_URL` has the same shape: its
`backurl` value contains the doubly-encoded `%253A%252F%252F` sequences. -/
theorem c1_counterexample :
    extractBackurl "https://p.example/login?backurl=%2541" = some "A"
    ∧ pctDecodeOnce "%2541" = "%41"
    ∧ ("A" : String) ≠ "%41" := by
  refine ⟨by decide, by decide, by decide⟩

/-! ## JSON values and Python truthiness

`json.loads` outcomes are embedded as `JVal`; the parse step itself is
abstracted as an outcome constructor (timeout / empty / malformed / parsed),
matching how every caller in the source wraps it in `try/except`. -/

inductive JVal where
  | jnull : JVal
  | jbool : Bool → JVal
  | jnum : Int → JVal
  | jstr : String → JVal
  | jarr : List JVal → JVal
  | jobj : List (String × JVal) → JVal

/-- Python truthiness (`bool(x)`) of a JSON-decoded value. -/
def pyTruthy : JVal → Bool
  | .jnull => false
  | .jbool b => b
  | .jnum n => decide (n ≠ 0)
  | .jstr s => decide (s ≠ "")
  | .jarr xs => !xs.isEmpty
  | .jobj fs => !fs.isEmpty

/-- Python `x == 0` of a JSON-decoded value (`0`, `0.0` and `False` all
compare equal to `0`; anything else does not). -/
def pyEqZero : JVal → Bool
  | .jnum n => decide (n = 0)
  | .jbool b => !b
  | _ => false

/-- `dict.get(k)` on a JSON object; on duplicate keys `json.loads` keeps the
last occurrence, hence the left fold. -/
def jGet (fs : List (String × JVal)) (k : String) : Option JVal :=
  fs.foldl (fun acc p => if p.1 == k then some p.2 else acc) none

/-- The `resp.get("code") != 0` test shared by the current-user check and the
key-creation response check (false when `code` is absent, since
`None != 0`). -/
def envCodeZero (fs : List (String × JVal)) : Bool :=
  match jGet fs "code" with
  | some v => pyEqZero v
  | none => false

/-! ## C3: Authentication Verifier (`_is_longcat_authenticated`) -/

/-- Outcome of the current-user fetch as it reaches the Python side of
`_longcat_user_current`: the injected JS resolves a timeout or any fetch
error to the empty string, so the only cases are an empty/timeout body, a
body `json.loads` rejects, or a parsed JSON value. -/
inductive UserFetch where
  | timeout : UserFetch
  | emptyBody : UserFetch
  | malformed : String → UserFetch
  | parsed : JVal → UserFetch

/-- `_longcat_user_current` (longcat_automation.py, lines 746-773) after the
fetch: `None` for a falsy/timeout body or a body that fails to parse,
otherwise the parsed value. -/
def userCurrentData : UserFetch → Option JVal
  | .timeout => none
  | .emptyBody => none
  | .malformed _ => none
  | .parsed j => some j

/-- `_is_longcat_authenticated` (longcat_automation.py, lines 776-783). -/
def isLongcatAuthenticated (o : UserFetch) : Bool :=
  match userCurrentData o with
  | none => false
  | some j =>
    match j with
    | .jobj fs =>
      envCodeZero fs &&
      (match jGet fs "data" with
       | some v => pyTruthy v
       | none => false)
    | _ => false

/-- C3 (confirmed): for every outcome of the current-user request — timeout,
empty body, malformed body, an envelope with a non-zero numeric code, or an
envelope whose `data` payload is absent or Python-falsy (null, empty object,
empty string, ...) — the Authentication Verifier returns `false`.  Every
exception site on these paths is caught in the source (the JS resolves fetch
errors and timeouts to `''`, `json.loads` is wrapped in `try/except`), which
the embedding reflects by being a total function into `Bool`. -/
theorem c3_auth_verifier_returns_false :
    isLongcatAuthenticated .timeout = false
    ∧ isLongcatAuthenticated .emptyBody = false
    ∧ (∀ raw, isLongcatAuthenticated (.malformed raw) = false)
    ∧ (∀ fs c, jGet fs "code" = some (.jnum c) → c ≠ 0 →
        isLongcatAuthenticated (.parsed (.jobj fs)) = false)
    ∧ (∀ fs v, jGet fs "data" = some v → pyTruthy v = false →
        isLongcatAuthenticated (.parsed (.jobj fs)) = false)
    ∧ (∀ fs, jGet fs "data" = none →
        isLongcatAuthenticated (.parsed (.jobj fs)) = false) := by
  refine ⟨rfl, rfl, fun raw => rfl, ?_, ?_, ?_⟩
  · intro fs c hc hne
    simp [isLongcatAuthenticated, userCurrentData, envCodeZero, hc, pyEqZero, hne]
  · intro fs v hv htr
    simp [isLongcatAuthenticated, userCurrentData, hv, htr]
  · intro fs hv
    simp [isLongcatAuthenticated, userCurrentData, hv]

/-- C3 witness: the theorem applied at a non-zero-code envelope and at a
null-payload envelope. -/
theorem c3_witness :
    isLongcatAuthenticated (.parsed (.jobj [("code", .jnum 1)])) = false
    ∧ isLongcatAuthenticated
        (.parsed (.jobj [("code", .jnum 0), ("data", .jnull)])) = false :=
  ⟨c3_auth_verifier_returns_false.2.2.2.1 _ 1 rfl (by decide),
   c3_auth_verifier_returns_false.2.2.2.2.1 _ .jnull rfl rfl⟩

/-! ## C7 / C8: credential record, key-issuance response, quota step -/

/-- The fields of the credential record fixed before the quota step
(longcat_automation.py, lines 1048-1053). -/
structure BaseRec where
  email : String
  apiKeyName : String
  apiKey : String
  createdAt : String

/-- Construction of the credential record from the parsed API key. -/
def recordFromKey (email apiKeyName createdAt apiKey : String) : BaseRec :=
  ⟨email, apiKeyName, apiKey, createdAt⟩

/-- Outcome of `json.loads` on the (unwrapped) key-creation response body. -/
inductive ApiBody where
  | malformed : String → ApiBody
  | parsed : JVal → ApiBody

/-- Parsing of the credential-issuance response
(longcat_automation.py, lines 1035-1045): not-JSON bodies raise, a non-zero
(or missing) `code` raises, a missing / non-string / empty-string `data`
raises, otherwise the API key string is returned.  A non-object JSON value
also raises (Python `AttributeError` on `resp.get`).  The interpolated parts
of the source's error messages are omitted. -/
def keyFromResponse : ApiBody → Except String String
  | .malformed raw => .error ("Unexpected API response (not JSON): " ++ raw.take 200)
  | .parsed j =>
    match j with
    | .jobj fs =>
      if envCodeZero fs then
        match jGet fs "data" with
        | some (.jstr s) =>
          if s = "" then .error "API key missing in response" else .ok s
        | some _ => .error "API key missing in response"
        | none => .error "API key missing in response"
      else .error "API key creation failed"
    | _ => .error "AttributeError: response is not an object"

/-- Whether an `Except` result is an error. -/
def exceptErr {ε α : Type} : Except ε α → Bool
  | .error _ => true
  | .ok _ => false

/-- The `data` payload of an envelope is unusable as an API key: absent, not
a string, or the empty string. -/
def DataBad (fs : List (String × JVal)) : Prop :=
  match jGet fs "data" with
  | some (.jstr s) => s = ""
  | some _ => True
  | none => True

/-- C8 (confirmed): the body `{"code":0,"data":"ak_abc123"}` yields the API
key `ak_abc123`, which the attempt stores as the record's `api_key` field; a
parseable envelope with a non-zero numeric code raises, and so does an
envelope whose `data` is missing or not a non-empty string. -/
theorem c8_key_issuance_parse :
    keyFromResponse (.parsed (.jobj [("code", .jnum 0), ("data", .jstr "ak_abc123")]))
      = .ok "ak_abc123"
    ∧ (∀ e n t, (recordFromKey e n t "ak_abc123").apiKey = "ak_abc123")
    ∧ (∀ fs c, jGet fs "code" = some (.jnum c) → c ≠ 0 →
        exceptErr (keyFromResponse (.parsed (.jobj fs))) = true)
    ∧ (∀ fs, DataBad fs →
        exceptErr (keyFromResponse (.parsed (.jobj fs))) = true) := by
  refine ⟨rfl, fun e n t => rfl, ?_, ?_⟩
  · intro fs c hc hne
    simp [keyFromResponse, envCodeZero, hc, pyEqZero, hne, exceptErr]
  · intro fs hbad
    unfold keyFromResponse
    by_cases hz : envCodeZero fs = true
    · unfold DataBad at hbad
      simp only [hz, if_true]
      split <;> try rfl
      next s heq =>
        rw [heq] at hbad
        simp [hbad, exceptErr]
    · simp [hz, exceptErr]

/-- C8 witness: the theorem applied at the rate-limited envelope and at a
zero-code envelope with a missing `data` field. -/
theorem c8_witness :
    exceptErr (keyFromResponse
      (.parsed (.jobj [("code", .jnum 1), ("message", .jstr "rate limited")]))) = true
    ∧ exceptErr (keyFromResponse (.parsed (.jobj [("code", .jnum 0)]))) = true :=
  ⟨c8_key_issuance_parse.2.2.1 _ 1 rfl (by decide),
   c8_key_issuance_parse.2.2.2 _ (by unfold DataBad; exact trivial)⟩

/-- Outcome of `apply_more_quota`: either the call raised, or it returned its
result dictionary, of which the attempt loop reads the `ok`, `applied_at`
and `error` entries. -/
inductive QuotaOutcome where
  | raised : String → QuotaOutcome
  | returned : Option JVal → Option JVal → Option JVal → QuotaOutcome

/-- Python `str(...)` on the JSON-decoded values that can reach the
`quota_apply_error` field (containers shown schematically). -/
def pyStr : JVal → String
  | .jnull => "None"
  | .jbool b => if b then "True" else "False"
  | .jnum n => toString n
  | .jstr s => s
  | .jarr _ => "<list>"
  | .jobj _ => "<dict>"

/-- The credential record together with the quota fields the quota step
appends to it. -/
structure FullRec where
  email : String
  apiKeyName : String
  apiKey : String
  createdAt : String
  quotaApplied : Option Bool
  quotaAppliedAt : Option JVal
  quotaApplyError : String

/-- Python truthiness of an optional value (`bool(d.get(k))`). -/
def pyTruthyOpt : Option JVal → Bool
  | none => false
  | some v => pyTruthy v

/-- The quota step of the attempt (longcat_automation.py, lines 1055-1078):
with quota application disabled the three quota fields keep their
initialisation; a raised exception records `quota_applied = False` and the
message; a returned dictionary records `bool(qr.get("ok"))`,
`qr.get("applied_at") or None` and `str(qr.get("error") or "")`.  In every
case the four credential fields are copied unchanged from the record fixed
before the step. -/
def quotaStep (applyCfg : Bool) (o : QuotaOutcome) (base : BaseRec) : FullRec :=
  if applyCfg then
    match o with
    | .raised msg =>
      ⟨base.email, base.apiKeyName, base.apiKey, base.createdAt,
       some false, none, msg⟩
    | .returned okv ts errv =>
      ⟨base.email, base.apiKeyName, base.apiKey, base.createdAt,
       some (pyTruthyOpt okv),
       (if pyTruthyOpt ts then ts else none),
       (match errv with
        | some v => if pyTruthy v then pyStr v else ""
        | none => "")⟩
  else
    ⟨base.email, base.apiKeyName, base.apiKey, base.createdAt, none, none, ""⟩

/-- C7 (confirmed): whatever the Quota Request Workflow does — returns any
dictionary or raises any exception — the attempt still produces a record
whose `email`, `api_key_name`, `api_key` and `created_at` are exactly those
fixed before the quota step, and only the three quota fields record the
outcome (a raised exception yields `quota_applied = False`, no timestamp,
and the exception message). -/
theorem c7_quota_never_clobbers_record :
    (∀ cfg o base,
      (quotaStep cfg o base).email = base.email
      ∧ (quotaStep cfg o base).apiKeyName = base.apiKeyName
      ∧ (quotaStep cfg o base).apiKey = base.apiKey
      ∧ (quotaStep cfg o base).createdAt = base.createdAt)
    ∧ (∀ msg base,
      (quotaStep true (.raised msg) base).quotaApplied = some false
      ∧ (quotaStep true (.raised msg) base).quotaAppliedAt = none
      ∧ (quotaStep true (.raised msg) base).quotaApplyError = msg) := by
  constructor
  · intro cfg o base
    cases o <;> cases cfg <;> simp [quotaStep]
  · intro msg base
    simp [quotaStep]

/-! ## C4 / C5 / C10: Attempt Retry Orchestrator -/

/-- Environment of one run of `create_longcat_account_and_api_key`: the
fresh-email collaborator's answer for attempt `k` (`none` models
`unified_create_email` failing) and the outcome of the whole browser flow of
attempt `k` with a given email (`Except.error` models the `try` block
raising, `Except.ok` a returned record). -/
structure RetryEnv (α : Type) where
  freshEmail : Nat → Option String
  flow : Nat → String → Except String α

/-- Normalisation of `max_attempts`
(longcat_automation.py, lines 829-831): `int(max_attempts or 1)` maps `None`
and `0` to `1`, then non-positive values are replaced by `1`. -/
def normAttempts (m : Option Int) : Int :=
  match m with
  | none => 1
  | some x => if x = 0 then 1 else if x ≤ 0 then 1 else x

/-- The attempt loop (longcat_automation.py, lines 834-1171): per iteration,
obtain an email (the fixed one if supplied, else a fresh one — a failed
creation raises immediately), run the flow, return its record on success;
on failure remember the error, stop at once when the email is fixed, and
after the last attempt raise the last error.  The returned trace lists, for
each loop iteration started, its index and the email it used. -/
def runFrom {α : Type} (env : RetryEnv α) (fixed : Option String) :
    Nat → Nat → Option String → List (Nat × Option String) →
    Except String α × List (Nat × Option String)
  | _, 0, lastErr, tr =>
    (.error (match lastErr with | some e => e | none => "LongCat flow failed"), tr)
  | k, fuel + 1, _lastErr, tr =>
    match (match fixed with | some e => some e | none => env.freshEmail k) with
    | none =>
      (.error "Email creation failed (unified_create_email)", tr ++ [(k, none)])
    | some mail =>
      match env.flow k mail with
      | .ok r => (.ok r, tr ++ [(k, some mail)])
      | .error msg =>
        if fixed.isSome then (.error msg, tr ++ [(k, some mail)])
        else runFrom env fixed (k + 1) fuel (some msg) (tr ++ [(k, some mail)])

/-- `create_longcat_account_and_api_key` reduced to its attempt-loop
skeleton, returning the final outcome and the per-iteration trace. -/
def runAttempts {α : Type} (env : RetryEnv α) (fixed : Option String)
    (m : Option Int) : Except String α × List (Nat × Option String) :=
  runFrom env fixed 0 (normAttempts m).toNat none []

theorem normAttempts_pos (m : Option Int) : 1 ≤ normAttempts m := by
  rcases m with _ | x
  · simp [normAttempts]
  · by_cases h0 : x = 0
    · simp [normAttempts, h0]
    · by_cases hle : x ≤ 0 <;> simp [normAttempts, h0, hle] <;> omega

/-- C4 (confirmed): with no fixed email, `max_attempts = 3`, a fresh email
available at every attempt and every attempt's flow failing, the orchestrator
runs exactly 3 attempts, each with the freshly created email of that attempt,
and raises a single error carrying the 3rd attempt's failure message. -/
theorem c4_three_attempts_last_error {α : Type} (env : RetryEnv α)
    (f : Nat → String) (msgs : Nat → String → String)
    (hmail : ∀ k, env.freshEmail k = some (f k))
    (hfail : ∀ k s, env.flow k s = .error (msgs k s)) :
    runAttempts env none (some 3)
      = (.error (msgs 2 (f 2)),
         [(0, some (f 0)), (1, some (f 1)), (2, some (f 2))]) := by
  unfold runAttempts
  have h3 : (normAttempts (some 3)).toNat = 3 := by decide
  rw [h3]
  simp [runFrom, hmail, hfail]

/-- C4 witness: the theorem applied at a concrete always-failing
environment. -/
theorem c4_witness :
    runAttempts (α := Unit)
      ⟨fun k => some (toString k), fun k _ => .error ("fail " ++ toString k)⟩
      none (some 3)
      = (.error "fail 2", [(0, some "0"), (1, some "1"), (2, some "2")]) := by
  have h := c4_three_attempts_last_error (α := Unit)
    ⟨fun k => some (toString k), fun k _ => .error ("fail " ++ toString k)⟩
    (fun k => toString k) (fun k _ => "fail " ++ toString k)
    (fun k => rfl) (fun k s => rfl)
  simpa using h

/-- C5 (confirmed): with a fixed email whose first attempt fails, the
orchestrator stops after that one attempt and raises its error, whatever
`max_attempts` was. -/
theorem c5_fixed_email_single_attempt {α : Type} (env : RetryEnv α)
    (e msg : String) (m : Option Int)
    (hfail : env.flow 0 e = .error msg) :
    runAttempts env (some e) m = (.error msg, [(0, some e)]) := by
  unfold runAttempts
  have h1 : 1 ≤ (normAttempts m).toNat := by
    have := normAttempts_pos m
    omega
  obtain ⟨fuel, hfuel⟩ : ∃ fuel, (normAttempts m).toNat = fuel + 1 :=
    ⟨(normAttempts m).toNat - 1, by omega⟩
  rw [hfuel, runFrom, hfail]
  simp

/-- C5 witness: the theorem applied at a concrete environment with
`max_attempts = 5`. -/
theorem c5_witness :
    runAttempts (α := Unit)
      ⟨fun _ => none, fun _ _ => .error "first failure"⟩
      (some "fixed@test.example") (some 5)
      = (.error "first failure", [(0, some "fixed@test.example")]) :=
  c5_fixed_email_single_attempt _ _ _ _ rfl

/-- C10 (confirmed): a `None`, zero or negative `max_attempts` is normalised
to 1, and the loop then starts exactly one attempt before returning or
raising — whatever the email collaborator and the flow do. -/
theorem c10_max_attempts_normalised {α : Type} (env : RetryEnv α)
    (fixed : Option String) (m : Option Int)
    (hm : m = none ∨ ∃ x, m = some x ∧ x ≤ 0) :
    normAttempts m = 1 ∧ (runAttempts env fixed m).2.length = 1 := by
  have hnorm : normAttempts m = 1 := by
    rcases hm with h | ⟨x, hx, hxle⟩
    · simp [normAttempts, h]
    · subst hx
      unfold normAttempts
      by_cases hx0 : x = 0 <;> simp [hx0] <;> omega
  refine ⟨hnorm, ?_⟩
  unfold runAttempts
  rw [hnorm]
  rcases fixed with _ | e
  · rcases hfe : env.freshEmail 0 with _ | mail
    · simp [runFrom, hfe]
    · rcases hflow : env.flow 0 mail with msg | r <;>
        simp [runFrom, hfe, hflow]
  · rcases hflow : env.flow 0 e with msg | r <;> simp [runFrom, hflow]

/-- C10 witness: the theorem applied at `max_attempts = -2` with a succeeding
flow. -/
theorem c10_witness :
    normAttempts (some (-2)) = 1
    ∧ (runAttempts (α := Unit)
        ⟨fun _ => some "a@test.example", fun _ _ => .ok ()⟩
        none (some (-2))).2.length = 1 :=
  c10_max_attempts_normalised _ none (some (-2)) (Or.inr ⟨-2, rfl, by omega⟩)

/-! ## C2: OTP Entry Controller (`_fill_otp`)

The live page is embedded as an oracle: `boxes k` is the number of OTP boxes
the k-th locator query (Python `_pick_otp_inputs` or the JS `pickOtp`, which
run the same geometric clustering against the same DOM) returns, and
`cont k` is the k-th evaluation of the submit-enabled signal
(`_find_otp_submit_button`/`_is_element_enabled` or the JS fallback, whose
disjunction the source computes in `_continue_enabled`). -/

structure OtpPage where
  boxes : Nat → Nat
  cont : Nat → Bool

/-- Fill-relevant actions `_fill_otp` performs on the page. -/
inductive OtpAct where
  | jsFillAll : OtpAct
  | clearBox : Nat → OtpAct
  | typeKey : Char → OtpAct
  | perBoxFill : Nat → Char → OtpAct
  | typeFocused : Char → OtpAct
deriving DecidableEq

/-- Oracle cursors plus the trace of fill actions. -/
structure FillSt where
  p : Nat
  c : Nat
  tr : List OtpAct

/-- One `_continue_enabled()` evaluation. -/
def contCheck (pg : OtpPage) (st : FillSt) : Bool × FillSt :=
  (pg.cont st.c, ⟨st.p, st.c + 1, st.tr⟩)

/-- One locator query (`_pick_otp_inputs` or the JS `pickOtp`). -/
def pickCall (pg : OtpPage) (st : FillSt) : Nat × FillSt :=
  (pg.boxes st.p, ⟨st.p + 1, st.c, st.tr⟩)

/-- `str.strip()` on the characters of a string (ASCII whitespace). -/
def stripL (l : List Char) : List Char :=
  ((l.dropWhile Char.isWhitespace).reverse.dropWhile Char.isWhitespace).reverse

/-- The per-box fallback loop of `_fill_otp` (longcat_automation.py, lines
701-712): for each digit index, re-locate the boxes and stop silently as
soon as fewer than the expected number are found, else fill box `i`. -/
def perBoxLoop (pg : OtpPage) (n : Nat) : List (Nat × Char) → FillSt → FillSt
  | [], st => st
  | (i, ch) :: rest, st =>
    let r := pickCall pg st
    if r.1 = 0 ∨ r.1 < n then r.2
    else perBoxLoop pg n rest ⟨r.2.p, r.2.c, r.2.tr ++ [.perBoxFill i ch]⟩

/-- One iteration of `_fill_otp`'s outer attempt loop (longcat_automation.py,
lines 650-728): locate boxes, bulk-set via JS (which fills only when its own
locator query finds at least `n` boxes), check the submit signal, then
either the clear/type/per-box strategies (enough boxes) or last-resort
typing into the focused element (too few boxes), checking the submit signal
after each strategy. -/
def fillAttempt (pg : OtpPage) (digits : List Char) (st : FillSt) :
    Bool × FillSt :=
  let n := digits.length
  let r1 := pickCall pg st
  let cnt := r1.1
  let r2 := pickCall pg r1.2
  let st2 := if n ≤ r2.1 then ⟨r2.2.p, r2.2.c, r2.2.tr ++ [.jsFillAll]⟩ else r2.2
  let b1 := contCheck pg st2
  if b1.1 then (true, b1.2)
  else if cnt ≠ 0 ∧ n ≤ cnt then
    let st3 : FillSt :=
      ⟨b1.2.p, b1.2.c, b1.2.tr ++ (List.range n).map OtpAct.clearBox⟩
    let st4 : FillSt := ⟨st3.p, st3.c, st3.tr ++ digits.map OtpAct.typeKey⟩
    let b2 := contCheck pg st4
    if b2.1 then (true, b2.2)
    else
      let st5 := perBoxLoop pg n digits.enum b2.2
      let b3 := contCheck pg st5
      (b3.1, b3.2)
  else
    let st6 : FillSt := ⟨b1.2.p, b1.2.c, b1.2.tr ++ digits.map OtpAct.typeFocused⟩
    let b4 := contCheck pg st6
    (b4.1, b4.2)

/-- The bounded outer loop (`for _attempt in range(6)`), also counting the
iterations that were started. -/
def fillLoop (pg : OtpPage) (digits : List Char) :
    Nat → FillSt → Bool × Nat × FillSt
  | 0, st => (false, 0, st)
  | fuel + 1, st =>
    match fillAttempt pg digits st with
    | (true, st') => (true, 1, st')
    | (false, st') =>
      let res := fillLoop pg digits fuel st'
      (res.1, res.2.1 + 1, res.2.2)

/-- `_fill_otp` (longcat_automation.py, lines 625-731): digit extraction from
the code, then up to 6 fill attempts; the result also carries the number of
attempts started and the action trace. -/
def fillOtp (pg : OtpPage) (code : String) : Bool × Nat × FillSt :=
  if ((stripL code.data).filter Char.isDigit).isEmpty then (false, 0, ⟨0, 0, []⟩)
  else fillLoop pg ((stripL code.data).filter Char.isDigit) 6 ⟨0, 0, []⟩

/-- The caller's step 5 (longcat_automation.py, lines 902-914): a false
result from `_fill_otp` raises before the submit control is ever looked up,
so the submit click (issued only when the control is found) never happens. -/
def otpSubmitStage (pg : OtpPage) (code : String) (submitBtnFound : Bool) :
    Except String Bool :=
  if (fillOtp pg code).1 then .ok submitBtnFound
  else .error "OTP fill failed (inputs did not match expected digits)"

/-- Actions that do not write into a located OTP box. -/
def noBoxWrite : OtpAct → Bool
  | .jsFillAll => false
  | .clearBox _ => false
  | .perBoxFill _ _ => false
  | .typeKey _ => true
  | .typeFocused _ => true

/-- C2 counterexample: a 4-digit code on a page where every locator query
yields 0 OTP boxes (fewer than the 4 digits) but the submit control reports
enabled: `_fill_otp` returns true, not false. -/
theorem c2_counterexample :
    ((stripL "1234".data).filter Char.isDigit).length = 4
    ∧ (fillOtp ⟨fun _ => 0, fun _ => true⟩ "1234").1 = true :=
  ⟨by decide, by decide⟩

theorem fillAttempt_fewer (pg : OtpPage) (digits : List Char) (st : FillSt)
    (hb : ∀ k, pg.boxes k < digits.length)
    (hc : ∀ k, pg.cont k = false) :
    fillAttempt pg digits st
      = (false, ⟨st.p + 2, st.c + 2, st.tr ++ digits.map OtpAct.typeFocused⟩) := by
  have hb0 := hb st.p
  have hb1 := hb (st.p + 1)
  have hjs : ¬ digits.length ≤ pg.boxes (st.p + 1) := by omega
  have hcnt : ¬ (pg.boxes st.p ≠ 0 ∧ digits.length ≤ pg.boxes st.p) := by
    omega
  simp only [fillAttempt, pickCall, contCheck, if_neg hjs, if_neg hcnt, hc,
    Bool.false_eq_true, if_false]

theorem fillLoop_fewer (pg : OtpPage) (digits : List Char)
    (hb : ∀ k, pg.boxes k < digits.length)
    (hc : ∀ k, pg.cont k = false) :
    ∀ (fuel : Nat) (st : FillSt),
      fillLoop pg digits fuel st
        = (false, fuel,
           ⟨st.p + 2 * fuel, st.c + 2 * fuel,
            st.tr ++ (List.replicate fuel (digits.map OtpAct.typeFocused)).flatten⟩) := by
  intro fuel
  induction fuel with
  | zero => intro st; simp [fillLoop]
  | succ f ih =>
    intro st
    rw [fillLoop]
    rw [fillAttempt_fewer pg digits st hb hc]
    simp only []
    rw [ih]
    simp only [List.replicate_succ, List.flatten_cons, List.append_assoc]
    refine congrArg _ (congrArg _ ?_)
    congr 1 <;> omega

theorem fillLoop_bounded (pg : OtpPage) (digits : List Char) :
    ∀ (fuel : Nat) (st : FillSt), (fillLoop pg digits fuel st).2.1 ≤ fuel := by
  intro fuel
  induction fuel with
  | zero => intro st; simp [fillLoop]
  | succ f ih =>
    intro st
    rw [fillLoop]
    rcases h : fillAttempt pg digits st with ⟨ok, st'⟩
    rcases ok with _ | _
    · have := ih st'
      simp only []
      omega
    · simp only []
      omega

/-- C2 (amended): `_fill_otp` starts at most 6 fill attempts; when the page
yields fewer located OTP boxes than the code has digits at every locator
query AND the submit-enabled signal never fires, it returns false after all
6 attempts without writing into any located OTP box (no JS bulk fill, no
clearing, no per-box fill — only last-resort keystrokes into whatever is
focused), and its caller then raises without ever activating the submit
control.  (As the counterexample shows, with fewer boxes but an enabled
submit signal the fill can still report success, so the never-enabled
condition cannot be dropped.) -/
theorem c2_fill_otp_bounded_and_fails (pg : OtpPage) (code : String) :
    (fillOtp pg code).2.1 ≤ 6
    ∧ (∀ n, n = ((stripL code.data).filter Char.isDigit).length → 1 ≤ n →
        (∀ k, pg.boxes k < n) → (∀ k, pg.cont k = false) →
        (fillOtp pg code).1 = false
        ∧ (fillOtp pg code).2.1 = 6
        ∧ (fillOtp pg code).2.2.tr.all noBoxWrite = true
        ∧ (∀ found, otpSubmitStage pg code found
            = .error "OTP fill failed (inputs did not match expected digits)")) := by
  constructor
  · unfold fillOtp
    split
    · simp
    · exact fillLoop_bounded pg _ 6 _
  · intro n hn hpos hb hc
    subst hn
    have hne : ((stripL code.data).filter Char.isDigit).isEmpty = false := by
      rcases h : (stripL code.data).filter Char.isDigit with _ | ⟨d, rest⟩
      · rw [h] at hpos; simp at hpos
      · rfl
    have hrun := fillLoop_fewer pg ((stripL code.data).filter Char.isDigit)
      hb hc 6 ⟨0, 0, []⟩
    have hfill : fillOtp pg code
        = (false, 6,
           ⟨0 + 2 * 6, 0 + 2 * 6,
            [] ++ (List.replicate 6
              (((stripL code.data).filter Char.isDigit).map OtpAct.typeFocused)).flatten⟩) := by
      unfold fillOtp
      rw [if_neg (by simp [hne])]
      exact hrun
    refine ⟨by rw [hfill], by rw [hfill], ?_, ?_⟩
    · rw [hfill]
      simp only [List.nil_append, List.all_eq_true]
      intro a ha
      rw [List.mem_flatten] at ha
      obtain ⟨l, hl, hal⟩ := ha
      rw [List.eq_of_mem_replicate hl] at hal
      rw [List.mem_map] at hal
      obtain ⟨ch, _, hch⟩ := hal
      rw [← hch]
      rfl
    · intro found
      unfold otpSubmitStage
      rw [hfill]
      simp

/-- C2 witness: the amended theorem applied at a 4-digit code on a page that
always locates a single box and never reports the submit control enabled. -/
theorem c2_witness :
    (fillOtp ⟨fun _ => 1, fun _ => false⟩ "1234").1 = false
    ∧ (fillOtp ⟨fun _ => 1, fun _ => false⟩ "1234").2.1 = 6
    ∧ (fillOtp ⟨fun _ => 1, fun _ => false⟩ "1234").2.2.tr.all noBoxWrite = true
    ∧ (∀ found, otpSubmitStage ⟨fun _ => 1, fun _ => false⟩ "1234" found
        = .error "OTP fill failed (inputs did not match expected digits)") :=
  (c2_fill_otp_bounded_and_fails ⟨fun _ => 1, fun _ => false⟩ "1234").2 4
    (by decide) (by decide) (fun k => by show (1 : Nat) < 4; decide)
    (fun k => by show (false : Bool) = false; rfl)

/-! ## C9: verification-code extraction and inbox polling

`GPTMailService._extract_code` (email_service.py, lines 180-186) is
`re.search(r"\b(\d{4,8})\b", text)`.  The embedding `extractCode` implements
the regex engine's semantics for this pattern directly: try every position
left to right; at each position require a word boundary, match 4-8 digits
greedily with backtracking, and require a word boundary after the digits.
`extractCodeSpec` is the second, spec-side definition (first
word-boundary-delimited run of 4-8 digits); the two are proved equal. -/

/-- Regex word characters (`\w`), ASCII range. -/
def isWordChar (c : Char) : Bool := c.isAlphanum || c = '_'

/-- Whether the first character of the remaining text is a word character
(`false` at end of text). -/
def wordAtHead (l : List Char) : Bool :=
  match l with
  | [] => false
  | c :: _ => isWordChar c

/-- Whether position `i` of the text holds a word character. -/
def wordAtIdx (l : List Char) (i : Nat) : Bool :=
  match l[i]? with
  | some c => isWordChar c
  | none => false

/-- The `\b` test between positions `m - 1` and `m` of the remaining text. -/
def boundaryAfter (l : List Char) (m : Nat) : Bool :=
  wordAtIdx l (m - 1) != wordAtIdx l m

/-- Greedy-with-backtracking length choice for `\d{4,8}`: starting from the
largest permitted length, find the first length `m ≥ 4` whose end position
is a word boundary. -/
def btLoop (l : List Char) : Nat → Option Nat
  | 0 => none
  | m + 1 =>
    if m + 1 < 4 then none
    else if boundaryAfter l (m + 1) then some (m + 1)
    else btLoop l m

/-- The whole pattern `\b(\d{4,8})\b` attempted at the current position,
given whether the preceding character is a word character. -/
def tryMatchL (prevW : Bool) (l : List Char) : Option (List Char) :=
  if prevW != wordAtHead l then
    match btLoop l (min (l.takeWhile Char.isDigit).length 8) with
    | some m => some (l.take m)
    | none => none
  else none

/-- `re.search` for the pattern: try each position left to right (including
the end-of-text position, where the digit part cannot match). -/
def searchL : Bool → List Char → Option (List Char)
  | prevW, [] => tryMatchL prevW []
  | prevW, c :: rest =>
    match tryMatchL prevW (c :: rest) with
    | some r => some r
    | none => searchL (isWordChar c) rest

/-- `GPTMailService._extract_code`. -/
def extractCode (s : String) : Option String :=
  (searchL false s.data).map String.mk

theorem dropWhileLenLe (p : Char → Bool) :
    ∀ l : List Char, (l.dropWhile p).length ≤ l.length := by
  intro l
  induction l with
  | nil => simp
  | cons c rest ih =>
    rw [List.dropWhile_cons]
    split
    · exact Nat.le_succ_of_le ih
    · simp

/-- The specification's description of `_extract_code`: scan for the first
run of 4 to 8 digits that is preceded by a non-word character (or the start
of the text) and followed by a non-word character (or the end); a shorter,
longer, or letter-adjacent digit run never matches. -/
def specScan : Bool → List Char → Option (List Char)
  | _, [] => none
  | prevW, c :: rest =>
    if Char.isDigit c && !prevW then
      if 4 ≤ (c :: rest.takeWhile Char.isDigit).length
          ∧ (c :: rest.takeWhile Char.isDigit).length ≤ 8
          ∧ wordAtHead (rest.dropWhile Char.isDigit) = false then
        some (c :: rest.takeWhile Char.isDigit)
      else specScan true (rest.dropWhile Char.isDigit)
    else specScan (isWordChar c) rest
termination_by _ l => l.length
decreasing_by
  · simp only [List.length_cons]
    exact Nat.lt_succ_of_le (dropWhileLenLe _ _)
  · simp

/-- Spec-side companion of `extractCode`. -/
def extractCodeSpec (s : String) : Option String :=
  (specScan false s.data).map String.mk

theorem isWordChar_of_isDigit {c : Char} (h : c.isDigit = true) :
    isWordChar c = true := by
  simp [isWordChar, Char.isAlphanum, h]

theorem take_takeWhile_len (p : Char → Bool) :
    ∀ l : List Char, l.take (l.takeWhile p).length = l.takeWhile p := by
  intro l
  induction l with
  | nil => simp
  | cons c rest ih =>
    by_cases hp : p c
    · rw [List.takeWhile_cons_of_pos hp]
      simp [ih]
    · rw [List.takeWhile_cons_of_neg hp]
      simp

theorem tryMatchL_nil (prevW : Bool) : tryMatchL prevW [] = none := by
  cases prevW <;> rfl

theorem tryMatchL_nonword (prevW : Bool) (c : Char) (rest : List Char)
    (h : Char.isDigit c = false) : tryMatchL prevW (c :: rest) = none := by
  unfold tryMatchL
  split
  · rw [List.takeWhile_cons_of_neg (by simp [h])]
    rfl
  · rfl

theorem tryMatchL_digit_after_word (c : Char) (rest : List Char)
    (h : Char.isDigit c = true) : tryMatchL true (c :: rest) = none := by
  unfold tryMatchL
  rw [show wordAtHead (c :: rest) = isWordChar c from rfl,
    isWordChar_of_isDigit h]
  rfl

theorem btLoop_found (l : List Char) (k : Nat) (h4 : 4 ≤ k)
    (hb : boundaryAfter l k = true) : btLoop l k = some k := by
  rcases k with _ | m
  · omega
  · rw [btLoop, if_neg (by omega), if_pos hb]

theorem btLoop_none (l : List Char) :
    ∀ k, (∀ m, 4 ≤ m → m ≤ k → boundaryAfter l m = false) →
      btLoop l k = none := by
  intro k
  induction k with
  | zero => intro _; rfl
  | succ m ih =>
    intro h
    rw [btLoop]
    by_cases hlt : m + 1 < 4
    · rw [if_pos hlt]
    · rw [if_neg hlt, h (m + 1) (by omega) (by omega)]
      simp only [Bool.false_eq_true, if_false]
      exact ih (fun j hj4 hjm => h j hj4 (by omega))

theorem searchL_skip_digits :
    ∀ (ds rest : List Char), (∀ d ∈ ds, Char.isDigit d = true) →
      searchL true (ds ++ rest) = searchL true rest := by
  intro ds
  induction ds with
  | nil => intro rest _; rfl
  | cons d ds ih =>
    intro rest hds
    have hd : Char.isDigit d = true := hds d (List.mem_cons_self d ds)
    rw [List.cons_append, searchL,
      tryMatchL_digit_after_word d _ hd, isWordChar_of_isDigit hd]
    exact ih rest (fun x hx => hds x (List.mem_cons_of_mem d hx))

theorem wordAtIdx_run (c : Char) (rest : List Char)
    (hc : Char.isDigit c = true) :
    ∀ m, m ≤ (rest.takeWhile Char.isDigit).length →
      wordAtIdx (c :: rest) m = true := by
  intro m hm
  rcases m with _ | s
  · simp [wordAtIdx, isWordChar_of_isDigit hc]
  · have hs : s < (rest.takeWhile Char.isDigit).length := by omega
    have h2 : (c :: rest)[s + 1]? = (rest.takeWhile Char.isDigit)[s]? := by
      rw [List.getElem?_cons_succ]
      conv_lhs =>
        rw [← List.takeWhile_append_dropWhile (p := Char.isDigit) (l := rest)]
      rw [List.getElem?_append, if_pos hs]
    rcases hval : (rest.takeWhile Char.isDigit)[s]? with _ | d
    · rw [List.getElem?_eq_none_iff] at hval
      omega
    · have hd : Char.isDigit d = true :=
        List.mem_takeWhile_imp (List.getElem?_mem hval)
      simp [wordAtIdx, h2, hval, isWordChar_of_isDigit hd]

theorem wordAtIdx_after_run (c : Char) (rest : List Char) :
    wordAtIdx (c :: rest) ((rest.takeWhile Char.isDigit).length + 1)
      = wordAtHead (rest.dropWhile Char.isDigit) := by
  have h1 : (c :: rest)[(rest.takeWhile Char.isDigit).length + 1]?
      = (rest.dropWhile Char.isDigit)[0]? := by
    rw [List.getElem?_cons_succ]
    have hsub : rest[(rest.takeWhile Char.isDigit).length]?
        = (rest.takeWhile Char.isDigit
            ++ rest.dropWhile Char.isDigit)[(rest.takeWhile Char.isDigit).length]? := by
      rw [List.takeWhile_append_dropWhile]
    rw [hsub, List.getElem?_append_right (Nat.le_refl _)]
    simp
  unfold wordAtIdx
  rw [h1]
  cases hA : rest.dropWhile Char.isDigit with
  | nil => simp [wordAtHead]
  | cons d tail => simp [wordAtHead]

theorem tryMatchL_candidate_good (c : Char) (rest : List Char)
    (hc : Char.isDigit c = true)
    (h4 : 4 ≤ (rest.takeWhile Char.isDigit).length + 1)
    (h8 : (rest.takeWhile Char.isDigit).length + 1 ≤ 8)
    (ha : wordAtHead (rest.dropWhile Char.isDigit) = false) :
    tryMatchL false (c :: rest) = some (c :: rest.takeWhile Char.isDigit) := by
  have hL : ((c :: rest).takeWhile Char.isDigit).length
      = (rest.takeWhile Char.isDigit).length + 1 := by
    rw [List.takeWhile_cons_of_pos hc]
    rfl
  have hbd : boundaryAfter (c :: rest)
      ((rest.takeWhile Char.isDigit).length + 1) = true := by
    unfold boundaryAfter
    rw [Nat.add_sub_cancel, wordAtIdx_run c rest hc _ (Nat.le_refl _),
      wordAtIdx_after_run c rest, ha]
    rfl
  unfold tryMatchL
  rw [show wordAtHead (c :: rest) = isWordChar c from rfl,
    isWordChar_of_isDigit hc]
  rw [if_pos (show (false != true) = true from rfl)]
  rw [hL, Nat.min_eq_left h8, btLoop_found _ _ h4 hbd]
  show some ((c :: rest).take ((rest.takeWhile Char.isDigit).length + 1))
      = some (c :: rest.takeWhile Char.isDigit)
  rw [show (c :: rest).take ((rest.takeWhile Char.isDigit).length + 1)
      = c :: rest.take (rest.takeWhile Char.isDigit).length from rfl,
    take_takeWhile_len]

theorem tryMatchL_candidate_bad (c : Char) (rest : List Char)
    (hc : Char.isDigit c = true)
    (hbad : ¬ (4 ≤ (rest.takeWhile Char.isDigit).length + 1
        ∧ (rest.takeWhile Char.isDigit).length + 1 ≤ 8
        ∧ wordAtHead (rest.dropWhile Char.isDigit) = false)) :
    tryMatchL false (c :: rest) = none := by
  have hL : ((c :: rest).takeWhile Char.isDigit).length
      = (rest.takeWhile Char.isDigit).length + 1 := by
    rw [List.takeWhile_cons_of_pos hc]
    rfl
  have hnone : btLoop (c :: rest)
      (min ((rest.takeWhile Char.isDigit).length + 1) 8) = none := by
    apply btLoop_none
    intro m h4m hm
    have hmboth := Nat.le_min.mp hm
    unfold boundaryAfter
    by_cases hmL : m < (rest.takeWhile Char.isDigit).length + 1
    · rw [wordAtIdx_run c rest hc (m - 1) (by omega),
        wordAtIdx_run c rest hc m (by omega)]
      rfl
    · have hmeq : m = (rest.takeWhile Char.isDigit).length + 1 := by omega
      have h8 : (rest.takeWhile Char.isDigit).length + 1 ≤ 8 := by omega
      have hA : wordAtHead (rest.dropWhile Char.isDigit) = true := by
        cases h : wordAtHead (rest.dropWhile Char.isDigit) with
        | false => exact absurd ⟨by omega, h8, h⟩ hbad
        | true => rfl
      subst hmeq
      rw [Nat.add_sub_cancel, wordAtIdx_run c rest hc _ (Nat.le_refl _),
        wordAtIdx_after_run c rest, hA]
      rfl
  unfold tryMatchL
  rw [show wordAtHead (c :: rest) = isWordChar c from rfl,
    isWordChar_of_isDigit hc]
  rw [if_pos (show (false != true) = true from rfl)]
  rw [hL, hnone]

theorem searchL_eq_specScan :
    ∀ (n : Nat) (l : List Char), l.length ≤ n →
      ∀ prevW, searchL prevW l = specScan prevW l := by
  intro n
  induction n with
  | zero =>
    intro l hl prevW
    have hnil : l = [] := List.length_eq_zero.mp (Nat.le_zero.mp hl)
    subst hnil
    rw [searchL, tryMatchL_nil, specScan]
  | succ n ih =>
    intro l hl prevW
    rcases l with _ | ⟨c, rest⟩
    · rw [searchL, tryMatchL_nil, specScan]
    · by_cases hd : Char.isDigit c = true
      · cases prevW with
        | false =>
          by_cases hgood : (4 ≤ (rest.takeWhile Char.isDigit).length + 1
              ∧ (rest.takeWhile Char.isDigit).length + 1 ≤ 8
              ∧ wordAtHead (rest.dropWhile Char.isDigit) = false)
          · rw [searchL,
              tryMatchL_candidate_good c rest hd hgood.1 hgood.2.1 hgood.2.2,
              specScan, if_pos (by simp [hd]), if_pos (by simpa using hgood)]
          · rw [searchL, tryMatchL_candidate_bad c rest hd hgood]
            show searchL (isWordChar c) rest = _
            rw [isWordChar_of_isDigit hd]
            have hsplit :
                searchL true rest
                  = searchL true (rest.takeWhile Char.isDigit
                      ++ rest.dropWhile Char.isDigit) := by
              rw [List.takeWhile_append_dropWhile]
            rw [hsplit,
              searchL_skip_digits _ _ (fun d hd' => List.mem_takeWhile_imp hd'),
              ih _ (le_trans (dropWhileLenLe _ _) (by simpa using hl)) true,
              specScan, if_pos (by simp [hd]), if_neg (by simpa using hgood)]
        | true =>
          rw [searchL, tryMatchL_digit_after_word c rest hd]
          show searchL (isWordChar c) rest = _
          rw [specScan, if_neg (by simp [hd])]
          exact ih rest (by simpa using hl) _
      · rw [searchL, tryMatchL_nonword prevW c rest (by simpa using hd)]
        show searchL (isWordChar c) rest = _
        rw [specScan, if_neg (by simp [hd])]
        exact ih rest (by simpa using hl) _

/-- One inbox message as `get_verification_code` reads it: subject, content,
and the two timestamp fields (`""` standing for an absent or empty field,
which Python's `or` chain treats alike). -/
structure MailMsg where
  subject : String
  content : String
  createdAt : String
  dateF : String

/-- `str(item.get("created_at") or item.get("date") or "")`. -/
def msgTime (m : MailMsg) : String :=
  if m.createdAt ≠ "" then m.createdAt
  else if m.dateF ≠ "" then m.dateF
  else ""

/-- The inner message scan of `get_verification_code` (email_service.py,
lines 225-232): update the last-seen timestamp from each message, try the
subject then the content, and stop at the first code found. -/
def scanMsgs : Option String → List MailMsg → Option String × Option String
  | lt, [] => (none, lt)
  | lt, m :: rest =>
    match extractCode m.subject with
    | some code => (some code, if msgTime m ≠ "" then some (msgTime m) else lt)
    | none =>
      match extractCode m.content with
      | some code => (some code, if msgTime m ≠ "" then some (msgTime m) else lt)
      | none => scanMsgs (if msgTime m ≠ "" then some (msgTime m) else lt) rest

/-- The polling loop of `GPTMailService.get_verification_code`
(email_service.py, lines 206-246): on a fetch error remember it and poll
again; on a fetch success scan the messages and return the first code with a
null error; after the last retry return a null code and the last error (or
the fixed no-code message). -/
def gvGo (fetch : Nat → Except String (List MailMsg)) :
    Nat → Nat → String → Option String →
    Option String × Option String × Option String
  | _, 0, lastErr, lastTime =>
    (none, some (if lastErr ≠ "" then lastErr else "未能获取验证码"), lastTime)
  | i, r + 1, lastErr, lastTime =>
    match fetch i with
    | .error e => gvGo fetch (i + 1) r e lastTime
    | .ok items =>
      match scanMsgs lastTime items with
      | (some code, lt2) => (some code, none, lt2)
      | (none, lt2) => gvGo fetch (i + 1) r lastErr lt2

/-- `GPTMailService.get_verification_code` over an inbox oracle `fetch`
(the outcome of `get_emails` at each poll). -/
def getVerificationCode (fetch : Nat → Except String (List MailMsg))
    (maxRetries : Nat) : Option String × Option String × Option String :=
  gvGo fetch 0 maxRetries "" none

/-- The claimed scenario's inbox: empty at the first poll, then one message
with subject `Your code is 4821`. -/
def scenarioFetch : Nat → Except String (List MailMsg) :=
  fun i =>
    if i = 0 then .ok []
    else .ok [⟨"Your code is 4821", "", "2026-02-03T04:05:06Z", ""⟩]

theorem scanMsgs_no_code (items : List MailMsg)
    (h : ∀ m ∈ items,
      extractCode m.subject = none ∧ extractCode m.content = none) :
    ∀ lt, (scanMsgs lt items).1 = none := by
  induction items with
  | nil => intro lt; rfl
  | cons m rest ih =>
    intro lt
    have hm := h m (List.mem_cons_self m rest)
    rw [scanMsgs, hm.1, hm.2]
    exact ih (fun x hx => h x (List.mem_cons_of_mem m hx)) _

theorem gvGo_exhaust (fetch : Nat → Except String (List MailMsg))
    (h : ∀ i items, fetch i = .ok items →
      ∀ m ∈ items, extractCode m.subject = none ∧ extractCode m.content = none) :
    ∀ (r i : Nat) (le : String) (lt : Option String),
      (gvGo fetch i r le lt).1 = none
      ∧ ∃ e, (gvGo fetch i r le lt).2.1 = some e := by
  have hok : ∀ (i r : Nat) (le : String) (lt : Option String) items,
      fetch i = .ok items →
      gvGo fetch i (r + 1) le lt
        = (match scanMsgs lt items with
           | (some code, lt2) => (some code, none, lt2)
           | (none, lt2) => gvGo fetch (i + 1) r le lt2) := by
    intro i r le lt items hf
    rw [gvGo, hf]
  intro r
  induction r with
  | zero => intro i le lt; exact ⟨rfl, _, rfl⟩
  | succ r ih =>
    intro i le lt
    cases hf : fetch i with
    | error e =>
      rw [gvGo, hf]
      exact ih (i + 1) e lt
    | ok items =>
      rcases hscan : scanMsgs lt items with ⟨copt, lt2⟩
      have hnone : copt = none := by
        have := scanMsgs_no_code items (h i items hf) lt
        rw [hscan] at this
        exact this
      subst hnone
      rw [hok i r le lt items hf, hscan]
      exact ih (i + 1) le lt2

/-- C9 (confirmed): the verification-code extractor equals the spec-side
first word-boundary-delimited 4-8 digit run (so it returns nothing for text
with no such run); a run of 9 or more digits is never matched; the claimed
mailbox scenario yields the code `4821` with a null error; and exhausting
all retries without a code yields a null code with a non-null error
message. -/
theorem c9_code_extraction_and_polling :
    (∀ s : String, extractCode s = extractCodeSpec s)
    ∧ (∀ s : String, (∀ c ∈ s.data, Char.isDigit c = true) →
        9 ≤ s.data.length → extractCode s = none)
    ∧ getVerificationCode scenarioFetch 5
        = (some "4821", none, some "2026-02-03T04:05:06Z")
    ∧ (∀ fetch n,
        (∀ i items, fetch i = Except.ok items →
          ∀ m ∈ items,
            extractCode m.subject = none ∧ extractCode m.content = none) →
        (getVerificationCode fetch n).1 = none
        ∧ ∃ e, (getVerificationCode fetch n).2.1 = some e) := by
  refine ⟨?_, ?_, by decide, ?_⟩
  · intro s
    unfold extractCode extractCodeSpec
    rw [searchL_eq_specScan s.data.length s.data (Nat.le_refl _) false]
  · intro s hdig hlen
    unfold extractCode
    rw [searchL_eq_specScan s.data.length s.data (Nat.le_refl _) false]
    rcases hl : s.data with _ | ⟨c, rest⟩
    · rw [hl] at hlen; simp at hlen
    · rw [hl] at hdig
      have hc : Char.isDigit c = true := hdig c (List.mem_cons_self c rest)
      have hrest : ∀ x ∈ rest, Char.isDigit x = true :=
        fun x hx => hdig x (List.mem_cons_of_mem c hx)
      have htw : rest.takeWhile Char.isDigit = rest :=
        List.takeWhile_eq_self_iff.mpr hrest
      have hdw : rest.dropWhile Char.isDigit = [] :=
        List.dropWhile_eq_nil_iff.mpr hrest
      have hlen' : 9 ≤ rest.length + 1 := by
        rw [hl] at hlen
        simpa using hlen
      rw [specScan, if_pos (by simp [hc])]
      rw [if_neg (by
        rw [htw]
        rintro ⟨-, h8, -⟩
        simp only [List.length_cons] at h8
        omega)]
      rw [hdw]
      simp [specScan]
  · intro fetch n hno
    exact gvGo_exhaust fetch hno n 0 "" none

/-- C9 witness: the theorem applied at a 9-digit run and at an inbox that
stays empty for its single poll. -/
theorem c9_witness :
    extractCode "123456789" = none
    ∧ (getVerificationCode (fun _ => Except.ok []) 1).1 = none := by
  constructor
  · exact c9_code_extraction_and_polling.2.1 "123456789" (by decide) (by decide)
  · refine (c9_code_extraction_and_polling.2.2.2 (fun _ => Except.ok []) 1 ?_).1
    intro i items hit m hm
    have hii : items = ([] : List MailMsg) := by
      simpa using hit.symm
    subst hii
    cases hm

/-! ## C6: the OTP-box locator (`_pick_otp_inputs`)

A candidate input element as the locator reads it from the live DOM:
identity (for `_dedupe`), visibility, the attributes the filters consult
(already lowercased, as `_safe_attr(...).lower()` produces them), the
current value, and the bounding rectangle.  Coordinates and sizes are
embedded as integers; the aspect-band and score comparisons are the exact
rational forms of the source's float comparisons. -/

structure InputEl where
  eid : Nat
  displayed : Bool
  ty : String
  oversea : Bool
  maxlength : String
  inputmode : String
  value : String
  x : Int
  y : Int
  w : Int
  h : Int
deriving DecidableEq

/-- Strict `(y, x)` key order used by `_pos` and the geometry pre-sort. -/
def ltYX (a b : InputEl) : Bool :=
  decide (a.y < b.y ∨ (a.y = b.y ∧ a.x < b.x))

/-- Strict left-coordinate order used for the in-cluster sort. -/
def ltX (a b : InputEl) : Bool := decide (a.x < b.x)

/-- Stable insertion of `a` behind every already-placed element that is
strictly smaller (so equal keys keep their original order, as Python's
stable sorts do). -/
def insOrd {α : Type} (lt : α → α → Bool) (a : α) : List α → List α
  | [] => [a]
  | b :: t => if lt b a then b :: insOrd lt a t else a :: b :: t

/-- Stable sort by the strict key order `lt` (the embedding of Python's
`list.sort` / `sorted` with a key function). -/
def stableSort {α : Type} (lt : α → α → Bool) : List α → List α
  | [] => []
  | a :: t => insOrd lt a (stableSort lt t)

theorem insOrd_perm {α : Type} (lt : α → α → Bool) (a : α) :
    ∀ l : List α, (insOrd lt a l).Perm (a :: l) := by
  intro l
  induction l with
  | nil => rfl
  | cons b t ih =>
    rw [insOrd]
    split
    · exact (ih.cons b).trans (List.Perm.swap a b t)
    · rfl

theorem stableSort_perm {α : Type} (lt : α → α → Bool) :
    ∀ l : List α, (stableSort lt l).Perm l := by
  intro l
  induction l with
  | nil => rfl
  | cons a t ih =>
    rw [stableSort]
    exact (insOrd_perm lt a (stableSort lt t)).trans (ih.cons a)

theorem insOrd_sorted {α : Type} (lt : α → α → Bool)
    (hasym : ∀ x y, lt x y = true → lt y x = false)
    (hnt : ∀ x y z, lt y x = false → lt z y = false → lt z x = false)
    (a : α) :
    ∀ l : List α, l.Pairwise (fun x y => lt y x = false) →
      (insOrd lt a l).Pairwise (fun x y => lt y x = false) := by
  intro l
  induction l with
  | nil => intro _; simp [insOrd]
  | cons b t ih =>
    intro hs
    rw [List.pairwise_cons] at hs
    rw [insOrd]
    split
    next hba =>
      rw [List.pairwise_cons]
      constructor
      · intro c hc
        rw [(insOrd_perm lt a t).mem_iff, List.mem_cons] at hc
        rcases hc with hc | hc
        · subst hc
          exact hasym b c hba
        · exact hs.1 c hc
      · exact ih hs.2
    next hba =>
      have hba' : lt b a = false := by
        cases h : lt b a
        · rfl
        · exact absurd h hba
      rw [List.pairwise_cons]
      refine ⟨?_, List.pairwise_cons.mpr hs⟩
      intro c hc
      rcases List.mem_cons.mp hc with hc | hc
      · subst hc
        exact hba'
      · exact hnt a b c hba' (hs.1 c hc)

theorem stableSort_sorted {α : Type} (lt : α → α → Bool)
    (hasym : ∀ x y, lt x y = true → lt y x = false)
    (hnt : ∀ x y z, lt y x = false → lt z y = false → lt z x = false) :
    ∀ l : List α, (stableSort lt l).Pairwise (fun x y => lt y x = false) := by
  intro l
  induction l with
  | nil => simp [stableSort]
  | cons a t ih => exact insOrd_sorted lt hasym hnt a _ ih

/-- Two permuted lists that are both strictly sorted by an asymmetric order
are equal. -/
theorem sorted_perm_eq {α : Type} (lt : α → α → Bool)
    (hasym : ∀ x y, lt x y = true → lt y x = false)
    {l₁ l₂ : List α} (hp : l₁.Perm l₂)
    (hs₁ : l₁.Pairwise fun x y => lt x y = true)
    (hs₂ : l₂.Pairwise fun x y => lt x y = true) : l₁ = l₂ := by
  haveI : IsAntisymm α (fun x y => lt x y = true) := ⟨by
    intro a b h1 h2
    have h3 := hasym a b h1
    rw [h3] at h2
    cases h2⟩
  exact List.eq_of_perm_of_sorted hp hs₁ hs₂

theorem ltX_asym : ∀ x y : InputEl, ltX x y = true → ltX y x = false := by
  intro x y h
  simp only [ltX, decide_eq_true_eq] at h
  simp only [ltX, decide_eq_false_iff_not]
  omega

theorem ltX_negtrans : ∀ x y z : InputEl,
    ltX y x = false → ltX z y = false → ltX z x = false := by
  intro x y z h1 h2
  simp only [ltX, decide_eq_false_iff_not] at h1 h2 ⊢
  omega

theorem ltYX_asym : ∀ x y : InputEl, ltYX x y = true → ltYX y x = false := by
  intro x y h
  simp only [ltYX, decide_eq_true_eq] at h
  simp only [ltYX, decide_eq_false_iff_not]
  omega

theorem ltYX_negtrans : ∀ x y z : InputEl,
    ltYX y x = false → ltYX z y = false → ltYX z x = false := by
  intro x y z h1 h2
  simp only [ltYX, decide_eq_false_iff_not] at h1 h2 ⊢
  omega

/-- The geometry filter of `_pick_otp_inputs` (longcat_automation.py, lines
159-184): visible, not an email/password input, positive size, width and
height within 26-140 px, aspect within 0.55-1.9 (`11h ≤ 20w ∧ 10w ≤ 19h` is
the exact rational form), and a current value of at most 2 characters. -/
def geoQual (e : InputEl) : Bool :=
  e.displayed && !(e.ty == "email") && !(e.ty == "password")
  && decide (0 < e.w) && decide (0 < e.h)
  && decide (26 ≤ e.w) && decide (e.w ≤ 140)
  && decide (26 ≤ e.h) && decide (e.h ≤ 140)
  && decide (11 * e.h ≤ 20 * e.w) && decide (10 * e.w ≤ 19 * e.h)
  && decide (e.value.length ≤ 2)

/-- `maxlength == "1"` filter of fallback 1 (lines 220-231). -/
def mlQual (e : InputEl) : Bool := e.displayed && e.maxlength == "1"

/-- Numeric-like filter of fallback 2 (lines 233-247). -/
def numQual (e : InputEl) : Bool :=
  e.displayed && (e.maxlength == "1" || e.inputmode == "numeric"
    || e.inputmode == "tel" || e.ty == "tel" || e.ty == "number")

/-- `_dedupe`: keep the first occurrence of each element identity. -/
def dedupeBy : List InputEl → List Nat → List InputEl
  | [], _ => []
  | e :: t, seen =>
    if e.eid ∈ seen then dedupeBy t seen
    else e :: dedupeBy t (e.eid :: seen)

/-- One clustering row: the sum and count represent the running mean
`c["y"]` exactly. -/
structure Cluster where
  ysum : Int
  count : Nat
  items : List InputEl

/-- Place an element into the first cluster whose running mean top is within
18 px (`abs(item[0] - c["y"]) <= 18` in exact rational form), else start a
new cluster at the end (lines 187-200). -/
def addToClusters (e : InputEl) : List Cluster → List Cluster
  | [] => [⟨e.y, 1, [e]⟩]
  | c :: cs =>
    if (e.y * (c.count : Int) - c.ysum).natAbs ≤ 18 * c.count then
      ⟨c.ysum + e.y, c.count + 1, c.items ++ [e]⟩ :: cs
    else c :: addToClusters e cs

def buildClusters (l : List InputEl) : List Cluster :=
  l.foldl (fun cs e => addToClusters e cs) []

/-- Python `int(...)` on the cluster's mean top: truncation toward zero. -/
def intTruncDiv (a : Int) (n : Nat) : Int :=
  if 0 ≤ a then a / (n : Int) else -((-a) / (n : Int))

/-- Best-cluster selection (lines 202-213): skip clusters smaller than the
expected count, sort the rest left-to-right, score by
`size * 1000 - int(mean_top)` and keep the strictly best, starting from
`best_score = -10_000`. -/
def pickBest (expected : Nat) :
    List Cluster → Option (List InputEl) → Int → Option (List InputEl)
  | [], best, _ => best
  | c :: cs, best, bestScore =>
    if c.items.length < expected then pickBest expected cs best bestScore
    else
      if bestScore < (c.items.length : Int) * 1000 - intTruncDiv c.ysum c.count then
        pickBest expected cs (some (stableSort ltX c.items))
          ((c.items.length : Int) * 1000 - intTruncDiv c.ysum c.count)
      else pickBest expected cs best bestScore

/-- The class-based fast path (lines 110-118): inputs carrying the
`oversea-verification-code-input` class, filtered to visible, sorted by
`(y, x)`, returned when at least the expected number exist. -/
def overseaFast (inputs : List InputEl) (expected : Nat) :
    Option (List InputEl) :=
  if expected ≤ (stableSort ltYX
      ((inputs.filter (fun e => e.oversea)).filter (fun e => e.displayed))).length
  then some ((stableSort ltYX
      ((inputs.filter (fun e => e.oversea)).filter (fun e => e.displayed))).take
        expected)
  else none

/-- The geometry-first path (lines 157-218): filter, sort by `(y, x)`,
cluster by top proximity, pick the best cluster, dedupe, and return the
first `expected` members when enough survive. -/
def geoPath (inputs : List InputEl) (expected : Nat) :
    Option (List InputEl) :=
  if (inputs.filter geoQual).isEmpty then none
  else
    match pickBest expected
        (buildClusters (stableSort ltYX (inputs.filter geoQual))) none (-10000) with
    | none => none
    | some best =>
      if expected ≤ (dedupeBy best []).length then
        some ((dedupeBy best []).take expected)
      else none

/-- Attribute fallbacks 1 and 2: filter, dedupe, sort by `(y, x)`, return
when at least the expected number exist. -/
def rankedPath (q : InputEl → Bool) (inputs : List InputEl)
    (expected : Nat) : Option (List InputEl) :=
  if expected ≤ (stableSort ltYX (dedupeBy (inputs.filter q) [])).length
  then some ((stableSort ltYX (dedupeBy (inputs.filter q) [])).take expected)
  else none

/-- `_pick_otp_inputs` (longcat_automation.py, lines 101-253): class fast
path, then geometric clustering, then the `maxlength=1` fallback, then the
numeric-like fallback, then the first `expected` visible inputs by
position. -/
def pickOtpInputs (inputs : List InputEl) (expected : Nat) : List InputEl :=
  match overseaFast inputs expected with
  | some r => r
  | none =>
  match geoPath inputs expected with
  | some r => r
  | none =>
  match rankedPath mlQual inputs expected with
  | some r => r
  | none =>
  match rankedPath numQual inputs expected with
  | some r => r
  | none =>
    (stableSort ltYX (dedupeBy (inputs.filter (fun e => e.displayed)) [])).take
      expected

/-- Sum of the top coordinates (the exact value behind the running mean). -/
def ysumOf (l : List InputEl) : Int := (l.map (fun e => e.y)).sum

theorem ysumOf_cons (a : InputEl) (t : List InputEl) :
    ysumOf (a :: t) = a.y + ysumOf t := by
  simp [ysumOf]

theorem ysumOf_append_single (l : List InputEl) (e : InputEl) :
    ysumOf (l ++ [e]) = ysumOf l + e.y := by
  simp [ysumOf]

theorem ysumOf_nonneg : ∀ l : List InputEl,
    (∀ e ∈ l, 0 ≤ e.y) → 0 ≤ ysumOf l := by
  intro l
  induction l with
  | nil => intro _; simp [ysumOf]
  | cons a t ih =>
    intro h
    rw [ysumOf_cons]
    have h1 := h a (List.mem_cons_self a t)
    have h2 := ih (fun e he => h e (List.mem_cons_of_mem a he))
    omega

theorem ysumOf_lt : ∀ l : List InputEl, l ≠ [] →
    (∀ e ∈ l, e.y < 14000) → ysumOf l < 14000 * l.length := by
  intro l
  induction l with
  | nil => intro h _; exact absurd rfl h
  | cons a t ih =>
    intro _ h
    have ha := h a (List.mem_cons_self a t)
    rw [ysumOf_cons]
    rcases ht : t with _ | ⟨b, t2⟩
    · simp [ysumOf]
      omega
    · have h2 := ih (by simp [ht]) (fun e he => h e (List.mem_cons_of_mem a he))
      rw [ht] at h2
      rw [← ht] at h2 ⊢
      simp only [List.length_cons]
      push_cast
      omega

theorem abs_mean_bound (y0 : Int) (items : List InputEl)
    (h : ∀ a ∈ items, (y0 - a.y).natAbs ≤ 18) :
    (y0 * (items.length : Int) - ysumOf items).natAbs ≤ 18 * items.length := by
  induction items with
  | nil => simp [ysumOf]
  | cons a t ih =>
    have ha := h a (List.mem_cons_self a t)
    have ht := ih (fun b hb => h b (List.mem_cons_of_mem a hb))
    have hsplit : y0 * ((a :: t).length : Int) - ysumOf (a :: t)
        = (y0 - a.y) + (y0 * (t.length : Int) - ysumOf t) := by
      rw [ysumOf_cons]
      simp only [List.length_cons]
      push_cast
      ring
    rw [hsplit]
    calc ((y0 - a.y) + (y0 * (t.length : Int) - ysumOf t)).natAbs
        ≤ (y0 - a.y).natAbs + (y0 * (t.length : Int) - ysumOf t).natAbs :=
          Int.natAbs_add_le _ _
      _ ≤ 18 + 18 * t.length := Nat.add_le_add ha ht
      _ = 18 * (a :: t).length := by
          simp only [List.length_cons]
          ring

theorem clusters_fold_single :
    ∀ (rem done : List InputEl), done ≠ [] →
      (∀ a ∈ done ++ rem, ∀ b ∈ done ++ rem, (a.y - b.y).natAbs ≤ 18) →
      List.foldl (fun cs e => addToClusters e cs)
          [⟨ysumOf done, done.length, done⟩] rem
        = [⟨ysumOf (done ++ rem), (done ++ rem).length, done ++ rem⟩] := by
  intro rem
  induction rem with
  | nil => intro done _ _; simp
  | cons e rem ih =>
    intro done hne hb
    rw [List.foldl_cons]
    have hcond : (e.y * (done.length : Int) - ysumOf done).natAbs
        ≤ 18 * done.length := by
      apply abs_mean_bound
      intro a ha
      exact hb e (by simp) a (by simp [ha])
    have haddc : addToClusters e [⟨ysumOf done, done.length, done⟩]
        = [⟨ysumOf (done ++ [e]), (done ++ [e]).length, done ++ [e]⟩] := by
      rw [addToClusters, if_pos hcond]
      simp [ysumOf_append_single]
    rw [haddc]
    have hassoc : (done ++ [e]) ++ rem = done ++ e :: rem := by simp
    rw [ih (done ++ [e]) (by simp) (by rw [hassoc]; exact hb), hassoc]

theorem buildClusters_single (l : List InputEl) (hne : l ≠ [])
    (hb : ∀ a ∈ l, ∀ b ∈ l, (a.y - b.y).natAbs ≤ 18) :
    buildClusters l = [⟨ysumOf l, l.length, l⟩] := by
  rcases l with _ | ⟨e, rest⟩
  · exact absurd rfl hne
  · unfold buildClusters
    rw [List.foldl_cons]
    have h0 : addToClusters e ([] : List Cluster)
        = [⟨ysumOf [e], [e].length, [e]⟩] := by
      simp [addToClusters, ysumOf]
    rw [h0]
    have := clusters_fold_single rest [e] (by simp) (by simpa using hb)
    simpa using this

theorem dedupeBy_noop :
    ∀ (l : List InputEl) (seen : List Nat),
      l.Pairwise (fun a b => a.eid ≠ b.eid) →
      (∀ e ∈ l, e.eid ∉ seen) → dedupeBy l seen = l := by
  intro l
  induction l with
  | nil => intro seen _ _; rfl
  | cons e t ih =>
    intro seen hp hseen
    rw [List.pairwise_cons] at hp
    rw [dedupeBy, if_neg (hseen e (List.mem_cons_self e t))]
    congr 1
    apply ih _ hp.2
    intro f hf
    simp only [List.mem_cons]
    push_neg
    exact ⟨fun hfe => (hp.1 f hf) hfe.symm,
      hseen f (List.mem_cons_of_mem e hf)⟩

theorem intTruncDiv_lt (a : Int) (n : Nat) (h0 : 0 ≤ a) (hn : 0 < n)
    (hb : a < 14000 * n) : intTruncDiv a n < 14000 := by
  unfold intTruncDiv
  rw [if_pos h0]
  have ha : ((a.toNat : Nat) : Int) = a := Int.toNat_of_nonneg h0
  rw [← ha, ← Int.ofNat_ediv]
  have hlt : a.toNat / n < 14000 := by
    rw [Nat.div_lt_iff_lt_mul hn]
    omega
  exact_mod_cast hlt

theorem pickBest_single (expected : Nat) (c : Cluster)
    (hlen : ¬ c.items.length < expected)
    (hscore : (-10000 : Int)
      < (c.items.length : Int) * 1000 - intTruncDiv c.ysum c.count) :
    pickBest expected [c] none (-10000) = some (stableSort ltX c.items) := by
  rw [pickBest, if_neg hlen, if_pos hscore, pickBest]

/-- C6 (amended): for every set `S` of N ≥ 4 input elements that pass the
geometry filter's full qualification (visible, type neither email nor
password, size envelope 26-140 px with aspect 0.55-1.9, current value at
most 2 characters), none of which carries the fast-path class, whose tops
lie pairwise within the 18-px clustering tolerance and below the score
cutoff (0 ≤ y < 14000, so the cluster's score beats the -10000 floor), with
pairwise distinct left coordinates and identities, and a page whose
qualifying inputs are exactly `S` and which carries the fast-path class
nowhere: `_pick_otp_inputs` with `expected_len = N` returns exactly those N
elements sorted by ascending left coordinate, independent of the order the
DOM enumerates them. -/
theorem c6_geo_cluster_locator (dom S : List InputEl)
    (hN : 4 ≤ S.length)
    (hperm : (dom.filter geoQual).Perm S)
    (hcls : ∀ e ∈ dom, e.oversea = false)
    (hrow : ∀ a ∈ S, ∀ b ∈ S, (a.y - b.y).natAbs ≤ 18)
    (hy : ∀ e ∈ S, 0 ≤ e.y ∧ e.y < 14000)
    (hx : S.Pairwise (fun a b => a.x ≠ b.x))
    (hid : S.Pairwise (fun a b => a.eid ≠ b.eid)) :
    pickOtpInputs dom S.length = stableSort ltX S := by
  have hfast : overseaFast dom S.length = none := by
    unfold overseaFast
    rw [show dom.filter (fun e => e.oversea) = [] from
      List.filter_eq_nil_iff.mpr (fun e he => by simp [hcls e he])]
    rw [List.filter_nil,
      show stableSort ltYX ([] : List InputEl) = [] from rfl]
    rw [if_neg (by simp only [List.length_nil]; omega)]
  have hglen : (dom.filter geoQual).length = S.length := hperm.length_eq
  have hsp : (stableSort ltYX (dom.filter geoQual)).Perm S :=
    (stableSort_perm ltYX _).trans hperm
  have hslen : (stableSort ltYX (dom.filter geoQual)).length = S.length :=
    hsp.length_eq
  have hsne : stableSort ltYX (dom.filter geoQual) ≠ [] := by
    intro h
    rw [h] at hslen
    simp at hslen
    omega
  have hsmem : ∀ e ∈ stableSort ltYX (dom.filter geoQual), e ∈ S :=
    fun e he => hsp.mem_iff.mp he
  have hclusters : buildClusters (stableSort ltYX (dom.filter geoQual))
      = [⟨ysumOf (stableSort ltYX (dom.filter geoQual)),
          (stableSort ltYX (dom.filter geoQual)).length,
          stableSort ltYX (dom.filter geoQual)⟩] :=
    buildClusters_single _ hsne
      (fun a ha b hb => hrow a (hsmem a ha) b (hsmem b hb))
  have hsum0 : 0 ≤ ysumOf (stableSort ltYX (dom.filter geoQual)) :=
    ysumOf_nonneg _ (fun e he => (hy e (hsmem e he)).1)
  have hsumlt : ysumOf (stableSort ltYX (dom.filter geoQual))
      < 14000 * (stableSort ltYX (dom.filter geoQual)).length :=
    ysumOf_lt _ hsne (fun e he => (hy e (hsmem e he)).2)
  have htrunc : intTruncDiv (ysumOf (stableSort ltYX (dom.filter geoQual)))
      (stableSort ltYX (dom.filter geoQual)).length < 14000 :=
    intTruncDiv_lt _ _ hsum0 (by omega) hsumlt
  have hscore : (-10000 : Int)
      < ((stableSort ltYX (dom.filter geoQual)).length : Int) * 1000
        - intTruncDiv (ysumOf (stableSort ltYX (dom.filter geoQual)))
            (stableSort ltYX (dom.filter geoQual)).length := by
    have h4 : 4 ≤ (stableSort ltYX (dom.filter geoQual)).length := by omega
    omega
  have hpick : pickBest S.length
      (buildClusters (stableSort ltYX (dom.filter geoQual))) none (-10000)
      = some (stableSort ltX (stableSort ltYX (dom.filter geoQual))) := by
    rw [hclusters]
    exact pickBest_single S.length _ (by simp [hslen]) hscore
  have hperm2 : (stableSort ltX (stableSort ltYX (dom.filter geoQual))).Perm S :=
    (stableSort_perm ltX _).trans hsp
  have hded : dedupeBy (stableSort ltX (stableSort ltYX (dom.filter geoQual))) []
      = stableSort ltX (stableSort ltYX (dom.filter geoQual)) := by
    apply dedupeBy_noop
    · exact (List.Perm.pairwise_iff (fun h => h.symm) hperm2).mpr hid
    · intro e _
      simp
  have hlen2 : (stableSort ltX (stableSort ltYX (dom.filter geoQual))).length
      = S.length := hperm2.length_eq
  have hfinal : stableSort ltX (stableSort ltYX (dom.filter geoQual))
      = stableSort ltX S := by
    apply sorted_perm_eq ltX ltX_asym
      (hperm2.trans (stableSort_perm ltX S).symm)
    · have hns := stableSort_sorted ltX ltX_asym ltX_negtrans
        (stableSort ltYX (dom.filter geoQual))
      have hdx : (stableSort ltX (stableSort ltYX (dom.filter geoQual))).Pairwise
          (fun a b => a.x ≠ b.x) :=
        (List.Perm.pairwise_iff (fun h => h.symm) hperm2).mpr hx
      refine (hns.and hdx).imp ?_
      intro a b hab
      simp only [ltX, decide_eq_false_iff_not] at hab
      simp only [ltX, decide_eq_true_eq]
      omega
    · have hns := stableSort_sorted ltX ltX_asym ltX_negtrans S
      have hdx : (stableSort ltX S).Pairwise (fun a b => a.x ≠ b.x) :=
        (List.Perm.pairwise_iff (fun h => h.symm) (stableSort_perm ltX S)).mpr hx
      refine (hns.and hdx).imp ?_
      intro a b hab
      simp only [ltX, decide_eq_false_iff_not] at hab
      simp only [ltX, decide_eq_true_eq]
      omega
  have hgeoE : (dom.filter geoQual).isEmpty = false := by
    rcases hgg : dom.filter geoQual with _ | _
    · rw [hgg] at hglen
      simp at hglen
      omega
    · rfl
  have hgp : geoPath dom S.length = some (stableSort ltX S) := by
    unfold geoPath
    rw [hgeoE]
    simp only [Bool.false_eq_true, if_false]
    rw [hpick]
    show (if S.length ≤ (dedupeBy
            (stableSort ltX (stableSort ltYX (dom.filter geoQual))) []).length
        then some ((dedupeBy
            (stableSort ltX (stableSort ltYX (dom.filter geoQual))) []).take
              S.length)
        else none) = some (stableSort ltX S)
    rw [hded, if_pos (by omega), hfinal]
    rw [show S.length = (stableSort ltX S).length from
      (stableSort_perm ltX S).length_eq.symm]
    rw [List.take_length]
  unfold pickOtpInputs
  rw [hfast, hgp]

/-- A page for the C6 counterexample: one wide header input (fails the size
envelope) and four size-conforming, visible, single-row boxes, one of which
has `type=password`. -/
def cexE0 : InputEl := ⟨0, true, "text", false, "", "", "", 10, 0, 300, 40⟩
def cexA : InputEl := ⟨1, true, "text", false, "", "", "", 100, 100, 40, 40⟩
def cexB : InputEl := ⟨2, true, "text", false, "", "", "", 60, 101, 40, 40⟩
def cexC : InputEl := ⟨3, true, "text", false, "", "", "", 140, 102, 40, 40⟩
def cexD : InputEl := ⟨4, true, "password", false, "", "", "", 20, 103, 40, 40⟩
def cexDom : List InputEl := [cexE0, cexA, cexB, cexC, cexD]
def cexBoxes : List InputEl := [cexD, cexB, cexA, cexC]

/-- C6 counterexample: `cexBoxes` are N = 4 visible inputs that satisfy the
size envelope with tops within the clustering tolerance, and the only other
input on the page fails the envelope — yet `_pick_otp_inputs` with
`expected_len = 4` does not return those 4 elements by ascending left
coordinate: the password-typed box is rejected by the geometry filter, so
the locator falls through to the last-resort path and returns the header
input plus three boxes in `(y, x)` order. -/
theorem c6_counterexample :
    cexBoxes.length = 4
    ∧ (∀ e ∈ cexBoxes, e.displayed = true ∧ 26 ≤ e.w ∧ e.w ≤ 140
        ∧ 26 ≤ e.h ∧ e.h ≤ 140 ∧ 11 * e.h ≤ 20 * e.w ∧ 10 * e.w ≤ 19 * e.h)
    ∧ (∀ a ∈ cexBoxes, ∀ b ∈ cexBoxes, (a.y - b.y).natAbs ≤ 18)
    ∧ ¬ (26 ≤ cexE0.w ∧ cexE0.w ≤ 140)
    ∧ pickOtpInputs cexDom 4 = [cexE0, cexA, cexB, cexC]
    ∧ [cexE0, cexA, cexB, cexC] ≠ [cexD, cexB, cexA, cexC] := by
  refine ⟨rfl, by decide, by decide, by decide, by decide, by decide⟩

/-- A fully qualifying single-row page for the C6 witness, enumerated by the
DOM in scrambled order. -/
def cw1 : InputEl := ⟨11, true, "text", false, "", "", "", 50, 200, 40, 40⟩
def cw2 : InputEl := ⟨12, true, "text", false, "", "", "1", 95, 201, 40, 40⟩
def cw3 : InputEl := ⟨13, true, "tel", false, "", "", "", 140, 202, 44, 40⟩
def cw4 : InputEl := ⟨14, true, "text", false, "", "", "", 185, 199, 40, 44⟩
def cwDom : List InputEl := [cw3, cw1, cw4, cw2]
def cwS : List InputEl := [cw1, cw2, cw3, cw4]

/-- C6 witness: the amended theorem applied at the concrete scrambled-DOM
page. -/
theorem c6_witness : pickOtpInputs cwDom cwS.length = stableSort ltX cwS :=
  c6_geo_cluster_locator cwDom cwS (by decide) (by decide) (by decide)
    (by decide) (by decide) (by decide) (by decide)
